import Mathlib

/-
Shallow embedding of the balance-ledger core of dingir-exchange
(src/matchengine/asset.rs): the asset registry (`AssetManager`), the
balance ledger (`BalanceManager`) and the idempotent update gate
(`BalanceUpdateController`), together with proofs about them.

Modelling decisions, each noted again at the definition it concerns:
- `rust_decimal::Decimal` is modelled as `ℚ`; `Decimal::round_dp` (default
  strategy `MidpointNearestEven`, i.e. banker's rounding) is `roundDp`.
- `HashMap` is modelled as an association list with replace-on-insert
  (`minsert` / `mlookup`); iteration order of `status` follows list order,
  which is irrelevant to the commutative accumulations it performs.
- `debug_assert!` aborts the operation before any mutation (debug-build
  semantics); fallible operations therefore return `Option`, `none`
  standing for the panic.
- `TtlCache` is an association list from key to expiry instant; an explicit
  `now : ℕ` parameter stands for the clock.
- the `HistoryWriter` and `MessageManager` sinks are modelled as the lists
  of records handed to them.
-/

namespace DingirAsset

/-- Model of rounding a rational to the nearest integer, ties to even:
the strategy `rust_decimal` names `MidpointNearestEven`, the default used
by `Decimal::round_dp`. -/
def halfEven (s : ℚ) : ℤ :=
  if s - ⌊s⌋ < 1 / 2 then ⌊s⌋
  else if 1 / 2 < s - ⌊s⌋ then ⌊s⌋ + 1
  else if ⌊s⌋ % 2 = 0 then ⌊s⌋ else ⌊s⌋ + 1

/-- Model of `Decimal::round_dp(dp)`: round to `dp` fractional digits,
banker's rounding. When `x` already has at most `dp` fractional digits the
source returns it unchanged; numerically that agrees with this function. -/
def roundDp (x : ℚ) (dp : ℕ) : ℚ := (halfEven (x * 10 ^ dp) : ℚ) / 10 ^ dp

/-- Means the rational has at most `p` fractional digits: it is an integer
multiple of `10 ^ (-p)`. -/
def hasPrec (x : ℚ) (p : ℕ) : Prop := ∃ n : ℤ, x = (n : ℚ) / 10 ^ p

/-- Association-list lookup, modelling `HashMap::get`. -/
def mlookup {K V : Type} [DecidableEq K] : List (K × V) → K → Option V
  | [], _ => none
  | (k2, v) :: t, k => if k2 = k then some v else mlookup t k

/-- Association-list insert that replaces an existing binding, modelling
`HashMap::insert`. -/
def minsert {K V : Type} [DecidableEq K] : List (K × V) → K → V → List (K × V)
  | [], k, v => [(k, v)]
  | (k2, v2) :: t, k, v => if k2 = k then (k, v) :: t else (k2, v2) :: minsert t k v

/-- Association-list removal, modelling `HashMap::remove`. -/
def mremove {K V : Type} [DecidableEq K] : List (K × V) → K → List (K × V)
  | [], _ => []
  | (k2, v2) :: t, k => if k2 = k then t else (k2, v2) :: mremove t k

/-- Model of `BalanceType` (asset.rs): the two balance states. -/
inductive BalanceType where
  | AVAILABLE
  | FREEZE
deriving DecidableEq

/-- Model of `BalanceMapKey` (asset.rs): identity of one ledger slot. -/
structure BalanceMapKey where
  user_id : ℕ
  balance_type : BalanceType
  asset : String
deriving DecidableEq

/-- Model of `AssetInfo` (asset.rs): per-asset precisions. -/
structure AssetInfo where
  prec_save : ℕ
  prec_show : ℕ
deriving DecidableEq

/-- Model of `AssetManager` (asset.rs): registry from asset name to info. -/
structure AssetManager where
  assets : List (String × AssetInfo)
deriving DecidableEq

/-- Model of `AssetManager::asset_get`. -/
def AssetManager.asset_get (am : AssetManager) (name : String) : Option AssetInfo :=
  mlookup am.assets name

/-- Model of `AssetManager::asset_exist`. -/
def AssetManager.asset_exist (am : AssetManager) (name : String) : Bool :=
  (am.asset_get name).isSome

/-- Model of `AssetManager::asset_prec`. The source unwraps and panics on an
unregistered asset; theorems that depend on the precision hypothesize the
asset is registered, making the default irrelevant. -/
def AssetManager.asset_prec (am : AssetManager) (name : String) : ℕ :=
  ((am.asset_get name).map AssetInfo.prec_save).getD 0

/-- Model of `AssetManager::asset_prec_show`, with the same remark on the
unregistered case as `asset_prec`. -/
def AssetManager.asset_prec_show (am : AssetManager) (name : String) : ℕ :=
  ((am.asset_get name).map AssetInfo.prec_show).getD 0

/-- Model of `BalanceManager` (asset.rs): the ledger. -/
structure BalanceManager where
  asset_manager : AssetManager
  balances : List (BalanceMapKey × ℚ)
deriving DecidableEq

/-- Model of `BalanceStatus` (asset.rs): per-asset aggregate. -/
structure BalanceStatus where
  total : ℚ
  available_count : ℕ
  available : ℚ
  frozen_count : ℕ
  frozen : ℚ
deriving DecidableEq

/-- Model of `BalanceManager::get_by_key`: stored amount, zero if absent. -/
def BalanceManager.get_by_key (bm : BalanceManager) (key : BalanceMapKey) : ℚ :=
  (mlookup bm.balances key).getD 0

/-- Model of `BalanceManager::get`. -/
def BalanceManager.get (bm : BalanceManager) (user_id : ℕ) (balance_type : BalanceType)
    (asset : String) : ℚ :=
  bm.get_by_key ⟨user_id, balance_type, asset⟩

/-- Model of `BalanceManager::get_with_round`: display rounding applied only
when the display precision differs from the store precision. -/
def BalanceManager.get_with_round (bm : BalanceManager) (user_id : ℕ)
    (balance_type : BalanceType) (asset : String) : ℚ :=
  let balance := bm.get user_id balance_type asset
  let prec_save := bm.asset_manager.asset_prec asset
  let prec_show := bm.asset_manager.asset_prec_show asset
  if prec_save = prec_show then balance else roundDp balance prec_show

/-- Model of `BalanceManager::del`. -/
def BalanceManager.del (bm : BalanceManager) (user_id : ℕ) (balance_type : BalanceType)
    (asset : String) : BalanceManager :=
  { bm with balances := mremove bm.balances ⟨user_id, balance_type, asset⟩ }

/-- Model of `BalanceManager::set_by_key`: `debug_assert!` the amount is not
negative (modelled as `none` on violation, the panic), round to the asset's
store precision, insert. -/
def BalanceManager.set_by_key (bm : BalanceManager) (key : BalanceMapKey) (amount : ℚ) :
    Option BalanceManager :=
  if 0 ≤ amount then
    some { bm with
      balances :=
        minsert bm.balances key (roundDp amount (bm.asset_manager.asset_prec key.asset)) }
  else none

/-- Model of `BalanceManager::set`. -/
def BalanceManager.set (bm : BalanceManager) (user_id : ℕ) (balance_type : BalanceType)
    (asset : String) (amount : ℚ) : Option BalanceManager :=
  bm.set_by_key ⟨user_id, balance_type, asset⟩ amount

/-- Model of `BalanceManager::add`: assert non-negative, round the argument,
add to the old value, store via `set_by_key`, return the new value. -/
def BalanceManager.add (bm : BalanceManager) (user_id : ℕ) (balance_type : BalanceType)
    (asset : String) (amount : ℚ) : Option (BalanceManager × ℚ) :=
  if 0 ≤ amount then
    let amount2 := roundDp amount (bm.asset_manager.asset_prec asset)
    let key : BalanceMapKey := ⟨user_id, balance_type, asset⟩
    let old_value := bm.get_by_key key
    let new_value := old_value + amount2
    (bm.set_by_key key new_value).map (fun bm2 => (bm2, new_value))
  else none

/-- Model of `BalanceManager::sub`: assert non-negative, round the argument,
`debug_assert!` the old value covers it (insufficient balance panics before
any mutation), store the difference, return it. The zero-result entry is
kept in the map, exactly as the source's `set_by_key` call does. -/
def BalanceManager.sub (bm : BalanceManager) (user_id : ℕ) (balance_type : BalanceType)
    (asset : String) (amount : ℚ) : Option (BalanceManager × ℚ) :=
  if 0 ≤ amount then
    let amount2 := roundDp amount (bm.asset_manager.asset_prec asset)
    let key : BalanceMapKey := ⟨user_id, balance_type, asset⟩
    let old_value := bm.get_by_key key
    if amount2 ≤ old_value then
      let new_value := old_value - amount2
      (bm.set_by_key key new_value).map (fun bm2 => (bm2, new_value))
    else none
  else none

/-- Model of `BalanceManager::frozen`: assert, round, check the AVAILABLE
balance covers the amount, then subtract from AVAILABLE and add to FREEZE. -/
def BalanceManager.frozen (bm : BalanceManager) (user_id : ℕ) (asset : String)
    (amount : ℚ) : Option BalanceManager :=
  if 0 ≤ amount then
    let amount2 := roundDp amount (bm.asset_manager.asset_prec asset)
    let old_available_value := bm.get_by_key ⟨user_id, BalanceType.AVAILABLE, asset⟩
    if amount2 ≤ old_available_value then
      match bm.sub user_id BalanceType.AVAILABLE asset amount2 with
      | none => none
      | some (bm1, _) =>
        match bm1.add user_id BalanceType.FREEZE asset amount2 with
        | none => none
        | some (bm2, _) => some bm2
    else none
  else none

/-- Model of `BalanceManager::unfrozen`: assert, round, check the FREEZE
balance covers the amount, then add to AVAILABLE and subtract from FREEZE
(in that order, as the source does). -/
def BalanceManager.unfrozen (bm : BalanceManager) (user_id : ℕ) (asset : String)
    (amount : ℚ) : Option BalanceManager :=
  if 0 ≤ amount then
    let amount2 := roundDp amount (bm.asset_manager.asset_prec asset)
    let old_frozen_value := bm.get_by_key ⟨user_id, BalanceType.FREEZE, asset⟩
    if amount2 ≤ old_frozen_value then
      match bm.add user_id BalanceType.AVAILABLE asset amount2 with
      | none => none
      | some (bm1, _) =>
        match bm1.sub user_id BalanceType.FREEZE asset amount2 with
        | none => none
        | some (bm2, _) => some bm2
    else none
  else none

/-- Model of `BalanceManager::total`. -/
def BalanceManager.total (bm : BalanceManager) (user_id : ℕ) (asset : String) : ℚ :=
  bm.get user_id BalanceType.AVAILABLE asset + bm.get user_id BalanceType.FREEZE asset

/-- Accumulation step of `BalanceManager::status`: skip entries of other
assets and zero amounts; otherwise add into the total and into the matching
state's count and sum. -/
def statusStep (asset : String) (result : BalanceStatus) (kv : BalanceMapKey × ℚ) :
    BalanceStatus :=
  if kv.1.asset = asset ∧ kv.2 ≠ 0 then
    if kv.1.balance_type = BalanceType.AVAILABLE then
      { result with
        total := result.total + kv.2
        available_count := result.available_count + 1
        available := result.available + kv.2 }
    else
      { result with
        total := result.total + kv.2
        frozen_count := result.frozen_count + 1
        frozen := result.frozen + kv.2 }
  else result

/-- Model of `BalanceManager::status`: fold the accumulation step over the
ledger map starting from the all-zero `BalanceStatus::default()`. -/
def BalanceManager.status (bm : BalanceManager) (asset : String) : BalanceStatus :=
  bm.balances.foldl (statusStep asset) ⟨0, 0, 0, 0, 0⟩

/-- Model of `BalanceUpdateKey` (asset.rs): the dedup key. -/
structure BalanceUpdateKey where
  user_id : ℕ
  asset : String
  business : String
  business_id : ℕ
deriving DecidableEq

/-- Model of `models::BalanceHistory` as constructed by the gate: the audit
record. The JSON `detail` payload is modelled as an association list of the
fields the gate touches. -/
structure BalanceHistory where
  time : ℕ
  user_id : ℕ
  asset : String
  business : String
  change : ℚ
  balance : ℚ
  detail : List (String × ℕ)
deriving DecidableEq

/-- Model of `message::BalanceMessage` as constructed by the gate. The source
renders `change` as its exact decimal text; the model keeps the value. -/
structure BalanceMessage where
  timestamp : ℕ
  user_id : ℕ
  asset : String
  business : String
  change : ℚ
deriving DecidableEq

/-- Model of `BalanceUpdateController` state: the TTL dedup cache (key to
expiry instant), the shared ledger, and the contents handed so far to the
notification and audit sinks. -/
structure BalanceUpdateController where
  cache : List (BalanceUpdateKey × ℕ)
  balance_manager : BalanceManager
  messages : List BalanceMessage
  histories : List BalanceHistory
deriving DecidableEq

/-- Model of `TtlCache::contains_key`: an entry counts only when present and
not yet expired. The lookup does not mutate the cache. -/
def cacheContains (cache : List (BalanceUpdateKey × ℕ)) (key : BalanceUpdateKey)
    (now : ℕ) : Bool :=
  match mlookup cache key with
  | some expiry => decide (now < expiry)
  | none => false

/-- Model of `BalanceUpdateController::update_user_balance`. Returns `false`
without touching anything on a duplicate dedup key; otherwise takes the
absolute value of `change` and branches on `abs_change.is_sign_positive() ||
abs_change.is_zero()` — on the numeric model `0 ≤ |change|`, which holds
always, exactly as it does in the source, where `Decimal::abs` clears the
sign flag — then inserts the dedup marker with a 3600-second expiry, and,
only when `real` is set, appends the audit record (with `business_id`
stamped into `detail` under the id field) and the notification message. -/
def BalanceUpdateController.update_user_balance (ctrl : BalanceUpdateController)
    (real : Bool) (user_id : ℕ) (asset : String) (business : String)
    (business_id : ℕ) (change : ℚ) (detail : List (String × ℕ)) (now : ℕ) :
    Option (Bool × BalanceUpdateController) :=
  let cache_key : BalanceUpdateKey := ⟨user_id, asset, business, business_id⟩
  if cacheContains ctrl.cache cache_key now then
    some (false, ctrl)
  else
    let abs_change := |change|
    let step :=
      if 0 ≤ abs_change then
        ctrl.balance_manager.add user_id BalanceType.AVAILABLE asset abs_change
      else
        ctrl.balance_manager.sub user_id BalanceType.AVAILABLE asset abs_change
    match step with
    | none => none
    | some (bm2, new_balance) =>
      let cache2 := minsert ctrl.cache cache_key (now + 3600)
      if real then
        let detail2 := minsert detail ("id") business_id
        let history : BalanceHistory :=
          ⟨now, user_id, asset, business, change, new_balance, detail2⟩
        let message : BalanceMessage := ⟨now, user_id, asset, business, change⟩
        some (true, ⟨cache2, bm2, message :: ctrl.messages, history :: ctrl.histories⟩)
      else
        some (true, ⟨cache2, bm2, ctrl.messages, ctrl.histories⟩)

end DingirAsset

namespace DingirAsset

/-! Lemmas about the association-list map primitives. -/

theorem mlookup_minsert_self {K V : Type} [DecidableEq K] (m : List (K × V)) (k : K)
    (v : V) : mlookup (minsert m k v) k = some v := by
  induction m with
  | nil => simp [minsert, mlookup]
  | cons kv t ih =>
    by_cases h : kv.1 = k
    · simp [minsert, h, mlookup]
    · simp [minsert, h, mlookup, ih]

theorem mlookup_minsert_ne {K V : Type} [DecidableEq K] (m : List (K × V)) (k k2 : K)
    (v : V) (h : k2 ≠ k) : mlookup (minsert m k v) k2 = mlookup m k2 := by
  have hk : ¬ (k = k2) := fun hh => h hh.symm
  induction m with
  | nil => simp [minsert, mlookup, hk]
  | cons kv t ih =>
    by_cases h1 : kv.1 = k
    · have h2 : ¬ (kv.1 = k2) := by rw [h1]; exact hk
      simp [minsert, mlookup, h1, h2, hk]
    · simp [minsert, mlookup, h1, ih]

theorem mem_minsert {K V : Type} [DecidableEq K] (m : List (K × V)) (k : K) (v : V)
    (kv : K × V) (h : kv ∈ minsert m k v) : kv = (k, v) ∨ kv ∈ m := by
  induction m with
  | nil => simpa [minsert] using h
  | cons kv2 t ih =>
    by_cases h1 : kv2.1 = k
    · simp only [minsert, h1, if_pos rfl] at h
      rcases List.mem_cons.mp h with h2 | h2
      · exact Or.inl h2
      · exact Or.inr (List.mem_cons_of_mem _ h2)
    · simp only [minsert, h1, if_neg h1] at h
      rcases List.mem_cons.mp h with h2 | h2
      · exact Or.inr (h2 ▸ List.mem_cons_self _ _)
      · rcases ih h2 with h3 | h3
        · exact Or.inl h3
        · exact Or.inr (List.mem_cons_of_mem _ h3)

/-! Lemmas about banker's rounding. -/

theorem halfEven_intCast (n : ℤ) : halfEven (n : ℚ) = n := by
  unfold halfEven
  rw [Int.floor_intCast, sub_self]
  norm_num

theorem halfEven_nonneg (s : ℚ) (h : 0 ≤ s) : 0 ≤ halfEven s := by
  have h0 : 0 ≤ ⌊s⌋ := Int.floor_nonneg.mpr h
  unfold halfEven
  split_ifs <;> omega

theorem roundDp_nonneg (x : ℚ) (p : ℕ) (h : 0 ≤ x) : 0 ≤ roundDp x p := by
  unfold roundDp
  have h1 : (0:ℚ) ≤ x * 10 ^ p := by positivity
  have h2 : (0:ℚ) ≤ (halfEven (x * 10 ^ p) : ℚ) := by
    exact_mod_cast halfEven_nonneg _ h1
  positivity

theorem hasPrec_roundDp (x : ℚ) (p : ℕ) : hasPrec (roundDp x p) p :=
  ⟨halfEven (x * 10 ^ p), rfl⟩

theorem roundDp_eq_self (x : ℚ) (p : ℕ) (h : hasPrec x p) : roundDp x p = x := by
  obtain ⟨n, rfl⟩ := h
  have hp : (10:ℚ) ^ p ≠ 0 := by positivity
  unfold roundDp
  rw [div_mul_cancel₀ _ hp, halfEven_intCast]

theorem roundDp_idem (x : ℚ) (p : ℕ) : roundDp (roundDp x p) p = roundDp x p :=
  roundDp_eq_self _ _ (hasPrec_roundDp x p)

theorem hasPrec_zero (p : ℕ) : hasPrec 0 p := ⟨0, by simp⟩

theorem roundDp_zero (p : ℕ) : roundDp 0 p = 0 :=
  roundDp_eq_self _ _ (hasPrec_zero p)

theorem hasPrec_add (x y : ℚ) (p : ℕ) (hx : hasPrec x p) (hy : hasPrec y p) :
    hasPrec (x + y) p := by
  obtain ⟨m, rfl⟩ := hx
  obtain ⟨n, rfl⟩ := hy
  exact ⟨m + n, by push_cast; ring⟩

theorem hasPrec_sub (x y : ℚ) (p : ℕ) (hx : hasPrec x p) (hy : hasPrec y p) :
    hasPrec (x - y) p := by
  obtain ⟨m, rfl⟩ := hx
  obtain ⟨n, rfl⟩ := hy
  exact ⟨m - n, by push_cast; ring⟩

end DingirAsset

namespace DingirAsset

/-! Closed-form descriptions of the ledger primitives under their
`debug_assert!` preconditions. -/

theorem set_by_key_eq (bm : BalanceManager) (key : BalanceMapKey) (amount : ℚ)
    (h : 0 ≤ amount) :
    bm.set_by_key key amount =
      some { bm with
        balances :=
          minsert bm.balances key
            (roundDp amount (bm.asset_manager.asset_prec key.asset)) } := by
  simp [BalanceManager.set_by_key, h]

theorem add_eq (bm : BalanceManager) (u : ℕ) (t : BalanceType) (a : String) (x : ℚ)
    (hx : 0 ≤ x) (hold : 0 ≤ bm.get_by_key ⟨u, t, a⟩) :
    bm.add u t a x =
      some ({ bm with
        balances :=
          minsert bm.balances ⟨u, t, a⟩
            (roundDp (bm.get_by_key ⟨u, t, a⟩ + roundDp x (bm.asset_manager.asset_prec a))
              (bm.asset_manager.asset_prec a)) },
        bm.get_by_key ⟨u, t, a⟩ + roundDp x (bm.asset_manager.asset_prec a)) := by
  have hr : 0 ≤ roundDp x (bm.asset_manager.asset_prec a) :=
    roundDp_nonneg _ _ hx
  have hnew : 0 ≤ bm.get_by_key ⟨u, t, a⟩ + roundDp x (bm.asset_manager.asset_prec a) :=
    add_nonneg hold hr
  simp only [BalanceManager.add, if_pos hx, set_by_key_eq _ _ _ hnew, Option.map_some']

theorem sub_eq (bm : BalanceManager) (u : ℕ) (t : BalanceType) (a : String) (x : ℚ)
    (hx : 0 ≤ x)
    (hge : roundDp x (bm.asset_manager.asset_prec a) ≤ bm.get_by_key ⟨u, t, a⟩) :
    bm.sub u t a x =
      some ({ bm with
        balances :=
          minsert bm.balances ⟨u, t, a⟩
            (roundDp (bm.get_by_key ⟨u, t, a⟩ - roundDp x (bm.asset_manager.asset_prec a))
              (bm.asset_manager.asset_prec a)) },
        bm.get_by_key ⟨u, t, a⟩ - roundDp x (bm.asset_manager.asset_prec a)) := by
  have hnew : 0 ≤ bm.get_by_key ⟨u, t, a⟩ - roundDp x (bm.asset_manager.asset_prec a) :=
    sub_nonneg.mpr hge
  simp only [BalanceManager.sub, if_pos hx, if_pos hge, set_by_key_eq _ _ _ hnew,
    Option.map_some']

theorem sub_none (bm : BalanceManager) (u : ℕ) (t : BalanceType) (a : String) (x : ℚ)
    (hx : 0 ≤ x)
    (hlt : bm.get_by_key ⟨u, t, a⟩ < roundDp x (bm.asset_manager.asset_prec a)) :
    bm.sub u t a x = none := by
  simp only [BalanceManager.sub, if_pos hx, if_neg (not_le.mpr hlt)]

end DingirAsset

namespace DingirAsset

/-- Fixture: registry holding asset BTC with store precision 8 and display
precision 4. -/
def btcAM : AssetManager := ⟨[(("BTC"), ⟨8, 4⟩)]⟩

/-- Fixture: empty ledger over the BTC registry. -/
def btcBM : BalanceManager := ⟨btcAM, []⟩

/-- Fixture: ledger where user 1 holds 5 BTC AVAILABLE. -/
def c1BM : BalanceManager := ⟨btcAM, [(⟨1, BalanceType.AVAILABLE, ("BTC")⟩, 5)]⟩

/-- Fixture: gate with an empty dedup cache over the 5-BTC ledger. -/
def c1Gate : BalanceUpdateController := ⟨[], c1BM, [], []⟩

/-- Fixture: a dedup key already marked in the cache of `dupGate`. -/
def dupKey : BalanceUpdateKey := ⟨1, ("BTC"), ("deposit"), 42⟩

/-- Fixture: gate whose dedup cache already holds `dupKey` (expiry instant 50),
over the 5-BTC ledger, with one recorded history and message absent. -/
def dupGate : BalanceUpdateController := ⟨[(dupKey, 50)], c1BM, [], []⟩

/-- C1: the spec says a negative `change` makes `update_user_balance` call the
ledger's `sub`; the code instead tests the sign of `change.abs()`, which is
never negative, so the `sub` branch is dead and a fresh-key update with
`change = -1` on a 5-BTC balance yields 6, not the 4 the spec requires. This
theorem evaluates the embedded code at that failing input. -/
theorem update_user_balance_negative_change_adds :
    ((c1Gate.update_user_balance false 1 ("BTC") ("withdraw") 7 (-1) [] 0).map
      (fun r => (r.1, r.2.balance_manager.get 1 BalanceType.AVAILABLE ("BTC"))))
      = some (true, 6) := by
  simp only [c1Gate, c1BM, btcAM, BalanceUpdateController.update_user_balance,
    cacheContains, BalanceManager.add, BalanceManager.sub, BalanceManager.set_by_key,
    BalanceManager.get, BalanceManager.get_by_key,
    AssetManager.asset_prec, AssetManager.asset_get,
    mlookup, minsert, roundDp, halfEven]
  norm_num [mlookup, Int.fract, -Int.self_sub_floor]

/-- C2: a call whose dedup key is already marked returns `false` and leaves
the ledger, the audit sink and the notification sink exactly as they were,
for every `real` flag and every `change`. -/
theorem update_user_balance_duplicate_noop (ctrl : BalanceUpdateController)
    (real : Bool) (user_id : ℕ) (asset business : String) (business_id : ℕ)
    (change : ℚ) (detail : List (String × ℕ)) (now : ℕ)
    (h : cacheContains ctrl.cache ⟨user_id, asset, business, business_id⟩ now = true) :
    ∃ s2, ctrl.update_user_balance real user_id asset business business_id change detail now
        = some (false, s2)
      ∧ s2.balance_manager = ctrl.balance_manager
      ∧ s2.histories = ctrl.histories
      ∧ s2.messages = ctrl.messages := by
  refine ⟨ctrl, ?_, rfl, rfl, rfl⟩
  simp [BalanceUpdateController.update_user_balance, h]

/-- Witness for C2 at a concrete duplicate call. -/
theorem update_user_balance_duplicate_noop_witness :
    cacheContains dupGate.cache ⟨1, ("BTC"), ("deposit"), 42⟩ 0 = true ∧
      ∃ s2, dupGate.update_user_balance true 1 ("BTC") ("deposit") 42 (-3) [] 0
          = some (false, s2)
        ∧ s2.balance_manager = dupGate.balance_manager
        ∧ s2.histories = dupGate.histories
        ∧ s2.messages = dupGate.messages :=
  ⟨by decide,
    update_user_balance_duplicate_noop dupGate true 1 ("BTC") ("deposit") 42 (-3) [] 0
      (by decide)⟩

/-- C10: on the duplicate path the dedup cache itself is returned untouched:
no marker is inserted and the stored expiry instant of the existing marker is
not refreshed. -/
theorem update_user_balance_duplicate_cache_unchanged (ctrl : BalanceUpdateController)
    (real : Bool) (user_id : ℕ) (asset business : String) (business_id : ℕ)
    (change : ℚ) (detail : List (String × ℕ)) (now : ℕ)
    (h : cacheContains ctrl.cache ⟨user_id, asset, business, business_id⟩ now = true) :
    ∃ s2, ctrl.update_user_balance real user_id asset business business_id change detail now
        = some (false, s2)
      ∧ s2.cache = ctrl.cache := by
  refine ⟨ctrl, ?_, rfl⟩
  simp [BalanceUpdateController.update_user_balance, h]

/-- Witness for C10 at a concrete duplicate call. -/
theorem update_user_balance_duplicate_cache_unchanged_witness :
    cacheContains dupGate.cache ⟨1, ("BTC"), ("deposit"), 42⟩ 7 = true ∧
      ∃ s2, dupGate.update_user_balance false 1 ("BTC") ("deposit") 42 2 [] 7
          = some (false, s2)
        ∧ s2.cache = dupGate.cache :=
  ⟨by decide,
    update_user_balance_duplicate_cache_unchanged dupGate false 1 ("BTC") ("deposit") 42 2 [] 7
      (by decide)⟩

/-- C3: `sub` with a rounded amount exceeding the stored value fails before
touching the map (the `none` of the model: the panic fires before
`set_by_key`, so no entry is created, removed or modified); under the
precondition that the stored value covers the rounded amount, the failure
branch is unreachable and the returned difference is non-negative. -/
theorem sub_insufficient_fatal_and_safe (bm : BalanceManager) (u : ℕ)
    (t : BalanceType) (a : String) (x : ℚ) (hx : 0 ≤ x) :
    (bm.get_by_key ⟨u, t, a⟩ < roundDp x (bm.asset_manager.asset_prec a) →
      bm.sub u t a x = none)
    ∧ (roundDp x (bm.asset_manager.asset_prec a) ≤ bm.get_by_key ⟨u, t, a⟩ →
      ∃ bm2, bm.sub u t a x
          = some (bm2, bm.get_by_key ⟨u, t, a⟩ - roundDp x (bm.asset_manager.asset_prec a))
        ∧ 0 ≤ bm.get_by_key ⟨u, t, a⟩ - roundDp x (bm.asset_manager.asset_prec a)) :=
  ⟨fun hlt => sub_none bm u t a x hx hlt,
    fun hge => ⟨_, sub_eq bm u t a x hx hge, sub_nonneg.mpr hge⟩⟩

/-- Witness for C3: subtracting 6 from a 5-BTC balance fails fatally. -/
theorem sub_insufficient_fatal_and_safe_witness :
    (0:ℚ) ≤ 6 ∧ c1BM.sub 1 BalanceType.AVAILABLE ("BTC") 6 = none :=
  ⟨by norm_num,
    (sub_insufficient_fatal_and_safe c1BM 1 BalanceType.AVAILABLE ("BTC") 6 (by norm_num)).1
      (by
        simp only [c1BM, btcAM, BalanceManager.get_by_key, AssetManager.asset_prec,
          AssetManager.asset_get, mlookup, roundDp, halfEven]
        norm_num [Int.fract, -Int.self_sub_floor])⟩

/-- C8: when `sub` brings a slot exactly to zero the key stays present in the
map, bound to zero: the operation never removes an entry. -/
theorem sub_to_zero_keeps_entry (bm : BalanceManager) (u : ℕ) (t : BalanceType)
    (a : String) (x : ℚ) (hx : 0 ≤ x)
    (heq : bm.get_by_key ⟨u, t, a⟩ = roundDp x (bm.asset_manager.asset_prec a)) :
    ∃ bm2, bm.sub u t a x = some (bm2, 0)
      ∧ mlookup bm2.balances ⟨u, t, a⟩ = some 0 := by
  have hge : roundDp x (bm.asset_manager.asset_prec a) ≤ bm.get_by_key ⟨u, t, a⟩ :=
    le_of_eq heq.symm
  have h0 : bm.get_by_key ⟨u, t, a⟩ - roundDp x (bm.asset_manager.asset_prec a) = 0 := by
    rw [heq, sub_self]
  refine ⟨{ bm with balances := minsert bm.balances ⟨u, t, a⟩ 0 }, ?_, ?_⟩
  · rw [sub_eq bm u t a x hx hge, h0, roundDp_zero]
  · exact mlookup_minsert_self _ _ _

/-- Witness for C8: subtracting the full 5-BTC balance leaves the slot
present with value zero. -/
theorem sub_to_zero_keeps_entry_witness :
    (0:ℚ) ≤ 5 ∧
      ∃ bm2, c1BM.sub 1 BalanceType.AVAILABLE ("BTC") 5 = some (bm2, 0)
        ∧ mlookup bm2.balances ⟨1, BalanceType.AVAILABLE, ("BTC")⟩ = some 0 :=
  ⟨by norm_num,
    sub_to_zero_keeps_entry c1BM 1 BalanceType.AVAILABLE ("BTC") 5 (by norm_num)
      (by
        simp only [c1BM, btcAM, BalanceManager.get_by_key, AssetManager.asset_prec,
          AssetManager.asset_get, mlookup, roundDp, halfEven]
        norm_num [Int.fract, -Int.self_sub_floor])⟩

/-- C9: on the BTC fixture (store precision 8, display precision 4), adding
1.123456789 to an absent balance stores and returns exactly 1.12345679, and
the display read then returns exactly 1.1235. -/
theorem btc_add_stores_and_displays_rounded :
    ((btcBM.add 1 BalanceType.AVAILABLE ("BTC") (1123456789/1000000000)).map
      (fun r => (r.2, r.1.get 1 BalanceType.AVAILABLE ("BTC"),
        r.1.get_with_round 1 BalanceType.AVAILABLE ("BTC"))))
      = some (112345679/100000000, 112345679/100000000, 11235/10000) := by
  simp only [btcBM, btcAM, BalanceManager.add, BalanceManager.set_by_key,
    BalanceManager.get, BalanceManager.get_by_key, BalanceManager.get_with_round,
    AssetManager.asset_prec, AssetManager.asset_prec_show, AssetManager.asset_get,
    mlookup, minsert, roundDp, halfEven]
  norm_num [mlookup, Int.fract, -Int.self_sub_floor]

end DingirAsset

namespace DingirAsset

/-- C4: with a fresh dedup key, a `real = false` call still performs exactly
the same ledger mutation as the `real = true` call, still inserts the dedup
marker with its one-hour expiry, and hands nothing to the audit or
notification sinks: `real` gates only the fan-out. -/
theorem update_user_balance_not_real_still_mutates (ctrl : BalanceUpdateController)
    (user_id : ℕ) (asset business : String) (business_id : ℕ) (change : ℚ)
    (detail : List (String × ℕ)) (now : ℕ)
    (hfresh : cacheContains ctrl.cache ⟨user_id, asset, business, business_id⟩ now = false)
    (hold : 0 ≤ ctrl.balance_manager.get_by_key ⟨user_id, BalanceType.AVAILABLE, asset⟩) :
    ((ctrl.update_user_balance false user_id asset business business_id change detail now).map
        (fun r => (r.1, r.2.balance_manager))
      = (ctrl.update_user_balance true user_id asset business business_id change detail now).map
        (fun r => (r.1, r.2.balance_manager)))
    ∧ ((ctrl.update_user_balance false user_id asset business business_id change detail now).map
        (fun r => (r.1, r.2.cache, r.2.histories, r.2.messages))
      = some (true, minsert ctrl.cache ⟨user_id, asset, business, business_id⟩ (now + 3600),
          ctrl.histories, ctrl.messages)) := by
  have hadd := add_eq ctrl.balance_manager user_id BalanceType.AVAILABLE asset
    |change| (abs_nonneg change) hold
  constructor <;>
    simp [BalanceUpdateController.update_user_balance, hfresh, abs_nonneg change, hadd]

/-- Witness for C4 at a concrete fresh-key call. -/
theorem update_user_balance_not_real_still_mutates_witness :
    cacheContains c1Gate.cache ⟨1, ("BTC"), ("deposit"), 9⟩ 0 = false ∧
      (0:ℚ) ≤ c1Gate.balance_manager.get_by_key ⟨1, BalanceType.AVAILABLE, ("BTC")⟩ ∧
      (((c1Gate.update_user_balance false 1 ("BTC") ("deposit") 9 2 [] 0).map
          (fun r => (r.1, r.2.balance_manager))
        = (c1Gate.update_user_balance true 1 ("BTC") ("deposit") 9 2 [] 0).map
          (fun r => (r.1, r.2.balance_manager)))
      ∧ ((c1Gate.update_user_balance false 1 ("BTC") ("deposit") 9 2 [] 0).map
          (fun r => (r.1, r.2.cache, r.2.histories, r.2.messages))
        = some (true, minsert c1Gate.cache ⟨1, ("BTC"), ("deposit"), 9⟩ 3600,
            c1Gate.histories, c1Gate.messages))) :=
  ⟨by decide, by decide,
    update_user_balance_not_real_still_mutates c1Gate 1 ("BTC") ("deposit") 9 2 [] 0
      (by decide) (by decide)⟩

end DingirAsset

namespace DingirAsset

/-- One mutating ledger primitive, as the spec's sentence ranges over
`set`/`add`/`subtract`. -/
inductive LedgerOp where
  | setOp (user_id : ℕ) (balance_type : BalanceType) (asset : String) (amount : ℚ)
  | addOp (user_id : ℕ) (balance_type : BalanceType) (asset : String) (amount : ℚ)
  | subOp (user_id : ℕ) (balance_type : BalanceType) (asset : String) (amount : ℚ)

/-- Runs one ledger primitive, dropping the returned amount. -/
def applyOp (bm : BalanceManager) : LedgerOp → Option BalanceManager
  | .setOp u t a x => bm.set u t a x
  | .addOp u t a x => (bm.add u t a x).map Prod.fst
  | .subOp u t a x => (bm.sub u t a x).map Prod.fst

/-- Runs a sequence of ledger primitives, stopping at the first failure. -/
def applyOps (bm : BalanceManager) : List LedgerOp → Option BalanceManager
  | [] => some bm
  | op :: rest =>
    match applyOp bm op with
    | none => none
    | some bm2 => applyOps bm2 rest

/-- Every stored amount of a registered asset has at most that asset's store
precision many fractional digits. -/
def precInvariant (bm : BalanceManager) : Prop :=
  ∀ kv ∈ bm.balances, ∀ info, bm.asset_manager.asset_get kv.1.asset = some info →
    hasPrec kv.2 info.prec_save

theorem asset_prec_of_get (am : AssetManager) (a : String) (info : AssetInfo)
    (h : am.asset_get a = some info) : am.asset_prec a = info.prec_save := by
  simp [AssetManager.asset_prec, h]

theorem precInvariant_set_by_key (bm : BalanceManager) (key : BalanceMapKey) (x : ℚ)
    (bm2 : BalanceManager) (hinv : precInvariant bm)
    (h : bm.set_by_key key x = some bm2) : precInvariant bm2 := by
  unfold BalanceManager.set_by_key at h
  by_cases h0 : 0 ≤ x
  · rw [if_pos h0, Option.some.injEq] at h
    intro kv hkv info hget
    have ham : bm2.asset_manager = bm.asset_manager := by rw [← h]
    rw [ham] at hget
    have hbal : bm2.balances
        = minsert bm.balances key (roundDp x (bm.asset_manager.asset_prec key.asset)) := by
      rw [← h]
    rw [hbal] at hkv
    rcases mem_minsert _ _ _ _ hkv with h1 | h1
    · have hasset : kv.1 = key := by rw [h1]
      rw [hasset] at hget
      have hprec : bm.asset_manager.asset_prec key.asset = info.prec_save :=
        asset_prec_of_get _ _ _ hget
      have hval : kv.2 = roundDp x (bm.asset_manager.asset_prec key.asset) := by rw [h1]
      rw [hval, hprec]
      exact hasPrec_roundDp _ _
    · exact hinv kv h1 info hget
  · rw [if_neg h0] at h
    exact absurd h (by simp)

theorem precInvariant_applyOp (bm : BalanceManager) (op : LedgerOp)
    (bm2 : BalanceManager) (hinv : precInvariant bm)
    (h : applyOp bm op = some bm2) : precInvariant bm2 := by
  cases op with
  | setOp u t a x =>
    exact precInvariant_set_by_key bm _ x bm2 hinv h
  | addOp u t a x =>
    simp only [applyOp, BalanceManager.add] at h
    by_cases hx : 0 ≤ x
    · rw [if_pos hx] at h
      simp only [Option.map_map] at h
      rcases Option.map_eq_some'.mp h with ⟨bm3, hset, hb⟩
      have hb2 : bm3 = bm2 := hb
      rw [hb2] at hset
      exact precInvariant_set_by_key bm _ _ bm2 hinv hset
    · rw [if_neg hx] at h
      exact absurd h (by simp)
  | subOp u t a x =>
    simp only [applyOp, BalanceManager.sub] at h
    by_cases hx : 0 ≤ x
    · rw [if_pos hx] at h
      by_cases hge : roundDp x (bm.asset_manager.asset_prec a)
          ≤ bm.get_by_key ⟨u, t, a⟩
      · rw [if_pos hge] at h
        simp only [Option.map_map] at h
        rcases Option.map_eq_some'.mp h with ⟨bm3, hset, hb⟩
        have hb2 : bm3 = bm2 := hb
        rw [hb2] at hset
        exact precInvariant_set_by_key bm _ _ bm2 hinv hset
      · rw [if_neg hge] at h
        exact absurd h (by simp)
    · rw [if_neg hx] at h
      exact absurd h (by simp)

/-- C5: after any sequence of `set`/`add`/`subtract` primitives applied to a
ledger all of whose stored amounts respect their assets' store precision,
every stored amount of a registered asset still has at most that asset's
store precision many fractional digits. -/
theorem stored_amounts_keep_store_precision (bm : BalanceManager)
    (ops : List LedgerOp) (bm2 : BalanceManager) (hinv : precInvariant bm)
    (h : applyOps bm ops = some bm2) : precInvariant bm2 := by
  induction ops generalizing bm with
  | nil =>
    simp only [applyOps, Option.some.injEq] at h
    rw [← h]
    exact hinv
  | cons op rest ih =>
    simp only [applyOps] at h
    cases hstep : applyOp bm op with
    | none => rw [hstep] at h; exact absurd h (by simp)
    | some bm3 =>
      rw [hstep] at h
      exact ih bm3 (precInvariant_applyOp bm op bm3 hinv hstep) h

/-- Fixture: the ledger reached from the empty BTC ledger by the C5 witness
operation sequence. -/
def c5Result : BalanceManager :=
  ⟨btcAM, [(⟨1, BalanceType.AVAILABLE, ("BTC")⟩, 112345679/100000000)]⟩

/-- Witness for C5: one concrete `add` on the empty BTC ledger. -/
theorem stored_amounts_keep_store_precision_witness :
    precInvariant btcBM ∧
      applyOps btcBM [LedgerOp.addOp 1 BalanceType.AVAILABLE ("BTC") (1123456789/1000000000)]
        = some c5Result ∧
      precInvariant c5Result :=
  ⟨by simp [precInvariant, btcBM],
    by
      simp only [applyOps, applyOp, btcBM, btcAM, c5Result, BalanceManager.add,
        BalanceManager.set_by_key, BalanceManager.get_by_key,
        AssetManager.asset_prec, AssetManager.asset_get,
        mlookup, minsert, roundDp, halfEven]
      norm_num [mlookup, Int.fract, -Int.self_sub_floor],
    stored_amounts_keep_store_precision btcBM
      [LedgerOp.addOp 1 BalanceType.AVAILABLE ("BTC") (1123456789/1000000000)] c5Result
      (by simp [precInvariant, btcBM])
      (by
        simp only [applyOps, applyOp, btcBM, btcAM, c5Result, BalanceManager.add,
          BalanceManager.set_by_key, BalanceManager.get_by_key,
          AssetManager.asset_prec, AssetManager.asset_get,
          mlookup, minsert, roundDp, halfEven]
        norm_num [mlookup, Int.fract, -Int.self_sub_floor])⟩

end DingirAsset

namespace DingirAsset

theorem frozen_eq (bm : BalanceManager) (u : ℕ) (a : String) (x : ℚ)
    (hx : 0 ≤ x)
    (hcov : roundDp x (bm.asset_manager.asset_prec a)
      ≤ bm.get_by_key ⟨u, BalanceType.AVAILABLE, a⟩)
    (hfr0 : 0 ≤ bm.get_by_key ⟨u, BalanceType.FREEZE, a⟩) :
    bm.frozen u a x =
      some { bm with balances := (minsert
          (minsert bm.balances ⟨u, BalanceType.AVAILABLE, a⟩
            (roundDp (bm.get_by_key ⟨u, BalanceType.AVAILABLE, a⟩
                - roundDp x (bm.asset_manager.asset_prec a))
              (bm.asset_manager.asset_prec a)))
          ⟨u, BalanceType.FREEZE, a⟩
          (roundDp (bm.get_by_key ⟨u, BalanceType.FREEZE, a⟩
              + roundDp x (bm.asset_manager.asset_prec a))
            (bm.asset_manager.asset_prec a))) } := by
  have hxr : 0 ≤ roundDp x (bm.asset_manager.asset_prec a) := roundDp_nonneg _ _ hx
  have hge2 : roundDp (roundDp x (bm.asset_manager.asset_prec a))
      (bm.asset_manager.asset_prec a) ≤ bm.get_by_key ⟨u, BalanceType.AVAILABLE, a⟩ := by
    rw [roundDp_idem]; exact hcov
  have hsub := sub_eq bm u BalanceType.AVAILABLE a
    (roundDp x (bm.asset_manager.asset_prec a)) hxr hge2
  rw [roundDp_idem] at hsub
  have hne : (⟨u, BalanceType.FREEZE, a⟩ : BalanceMapKey)
      ≠ ⟨u, BalanceType.AVAILABLE, a⟩ := by simp
  have hold2 : 0 ≤ BalanceManager.get_by_key
      { bm with balances := (minsert bm.balances ⟨u, BalanceType.AVAILABLE, a⟩
          (roundDp (bm.get_by_key ⟨u, BalanceType.AVAILABLE, a⟩
              - roundDp x (bm.asset_manager.asset_prec a))
            (bm.asset_manager.asset_prec a))) }
      ⟨u, BalanceType.FREEZE, a⟩ := by
    simp only [BalanceManager.get_by_key]
    rw [mlookup_minsert_ne _ _ _ _ hne]
    exact hfr0
  have hadd := add_eq
    { bm with balances := (minsert bm.balances ⟨u, BalanceType.AVAILABLE, a⟩
          (roundDp (bm.get_by_key ⟨u, BalanceType.AVAILABLE, a⟩
              - roundDp x (bm.asset_manager.asset_prec a))
            (bm.asset_manager.asset_prec a))) }
    u BalanceType.FREEZE a (roundDp x (bm.asset_manager.asset_prec a)) hxr hold2
  simp only [BalanceManager.frozen, if_pos hx, if_pos hcov, hsub, hadd]
  simp only [BalanceManager.get_by_key, mlookup_minsert_ne _ _ _ _ hne, roundDp_idem]

theorem unfrozen_eq (bm : BalanceManager) (u : ℕ) (a : String) (x : ℚ)
    (hx : 0 ≤ x)
    (hcovF : roundDp x (bm.asset_manager.asset_prec a)
      ≤ bm.get_by_key ⟨u, BalanceType.FREEZE, a⟩)
    (hav0 : 0 ≤ bm.get_by_key ⟨u, BalanceType.AVAILABLE, a⟩) :
    bm.unfrozen u a x =
      some { bm with balances := (minsert
          (minsert bm.balances ⟨u, BalanceType.AVAILABLE, a⟩
            (roundDp (bm.get_by_key ⟨u, BalanceType.AVAILABLE, a⟩
                + roundDp x (bm.asset_manager.asset_prec a))
              (bm.asset_manager.asset_prec a)))
          ⟨u, BalanceType.FREEZE, a⟩
          (roundDp (bm.get_by_key ⟨u, BalanceType.FREEZE, a⟩
              - roundDp x (bm.asset_manager.asset_prec a))
            (bm.asset_manager.asset_prec a))) } := by
  have hxr : 0 ≤ roundDp x (bm.asset_manager.asset_prec a) := roundDp_nonneg _ _ hx
  have hadd := add_eq bm u BalanceType.AVAILABLE a
    (roundDp x (bm.asset_manager.asset_prec a)) hxr hav0
  rw [roundDp_idem] at hadd
  have hne : (⟨u, BalanceType.FREEZE, a⟩ : BalanceMapKey)
      ≠ ⟨u, BalanceType.AVAILABLE, a⟩ := by simp
  have hge2 : roundDp (roundDp x (bm.asset_manager.asset_prec a))
      (bm.asset_manager.asset_prec a)
      ≤ BalanceManager.get_by_key
        { bm with balances := (minsert bm.balances ⟨u, BalanceType.AVAILABLE, a⟩
            (roundDp (bm.get_by_key ⟨u, BalanceType.AVAILABLE, a⟩
                + roundDp x (bm.asset_manager.asset_prec a))
              (bm.asset_manager.asset_prec a))) }
        ⟨u, BalanceType.FREEZE, a⟩ := by
    simp only [BalanceManager.get_by_key]
    rw [mlookup_minsert_ne _ _ _ _ hne, roundDp_idem]
    exact hcovF
  have hsub := sub_eq
    { bm with balances := (minsert bm.balances ⟨u, BalanceType.AVAILABLE, a⟩
          (roundDp (bm.get_by_key ⟨u, BalanceType.AVAILABLE, a⟩
              + roundDp x (bm.asset_manager.asset_prec a))
            (bm.asset_manager.asset_prec a))) }
    u BalanceType.FREEZE a (roundDp x (bm.asset_manager.asset_prec a)) hxr hge2
  simp only [BalanceManager.unfrozen, if_pos hx, if_pos hcovF, hadd, hsub]
  simp only [BalanceManager.get_by_key, mlookup_minsert_ne _ _ _ _ hne, roundDp_idem]

end DingirAsset

namespace DingirAsset

/-- C6: freezing a covered amount and immediately unfreezing the same amount
restores both the AVAILABLE and the FREEZE balances of the slot exactly, on
any ledger whose stored amounts respect the asset's store precision. -/
theorem freeze_unfreeze_restores (bm : BalanceManager) (u : ℕ) (a : String) (x : ℚ)
    (info : AssetInfo)
    (hreg : bm.asset_manager.asset_get a = some info)
    (hx : 0 ≤ x)
    (hcov : roundDp x info.prec_save ≤ bm.get u BalanceType.AVAILABLE a)
    (hfr0 : 0 ≤ bm.get u BalanceType.FREEZE a)
    (hpa : hasPrec (bm.get u BalanceType.AVAILABLE a) info.prec_save)
    (hpf : hasPrec (bm.get u BalanceType.FREEZE a) info.prec_save) :
    ∃ bm1 bm2, bm.frozen u a x = some bm1 ∧ bm1.unfrozen u a x = some bm2
      ∧ bm2.get u BalanceType.AVAILABLE a = bm.get u BalanceType.AVAILABLE a
      ∧ bm2.get u BalanceType.FREEZE a = bm.get u BalanceType.FREEZE a := by
  have hp : bm.asset_manager.asset_prec a = info.prec_save := asset_prec_of_get _ _ _ hreg
  simp only [BalanceManager.get] at hcov hfr0 hpa hpf ⊢
  have hne : (⟨u, BalanceType.FREEZE, a⟩ : BalanceMapKey)
      ≠ ⟨u, BalanceType.AVAILABLE, a⟩ := by simp
  have hne2 : (⟨u, BalanceType.AVAILABLE, a⟩ : BalanceMapKey)
      ≠ ⟨u, BalanceType.FREEZE, a⟩ := by simp
  have h1 := frozen_eq bm u a x hx (by rw [hp]; exact hcov) hfr0
  rw [hp] at h1
  rw [roundDp_eq_self _ _ (hasPrec_sub _ _ _ hpa (hasPrec_roundDp x _)),
      roundDp_eq_self _ _ (hasPrec_add _ _ _ hpf (hasPrec_roundDp x _))] at h1
  have h2 := unfrozen_eq
    { bm with balances := (minsert
        (minsert bm.balances ⟨u, BalanceType.AVAILABLE, a⟩
          (bm.get_by_key ⟨u, BalanceType.AVAILABLE, a⟩ - roundDp x info.prec_save))
        ⟨u, BalanceType.FREEZE, a⟩
        (bm.get_by_key ⟨u, BalanceType.FREEZE, a⟩ + roundDp x info.prec_save)) }
    u a x hx
    (by
      simp only [BalanceManager.get_by_key, mlookup_minsert_self, Option.getD_some, hp]
      exact le_add_of_nonneg_left hfr0)
    (by
      simp only [BalanceManager.get_by_key,
        mlookup_minsert_ne _ _ _ _ hne2, mlookup_minsert_self, Option.getD_some]
      exact sub_nonneg.mpr hcov)
  refine ⟨_, _, h1, h2, ?_, ?_⟩
  · simp only [BalanceManager.get_by_key,
      mlookup_minsert_ne _ _ _ _ hne2, mlookup_minsert_ne _ _ _ _ hne,
      mlookup_minsert_self, Option.getD_some, hp]
    rw [sub_add_cancel]
    exact roundDp_eq_self _ _ hpa
  · simp only [BalanceManager.get_by_key,
      mlookup_minsert_ne _ _ _ _ hne2, mlookup_minsert_ne _ _ _ _ hne,
      mlookup_minsert_self, Option.getD_some, hp]
    rw [add_sub_cancel_right]
    exact roundDp_eq_self _ _ hpf

end DingirAsset

namespace DingirAsset

/-- Witness for C6: freezing then unfreezing 2 BTC on the 5-BTC ledger. -/
theorem freeze_unfreeze_restores_witness :
    c1BM.asset_manager.asset_get ("BTC") = some ⟨8, 4⟩
    ∧ (0:ℚ) ≤ 2
    ∧ roundDp 2 8 ≤ c1BM.get 1 BalanceType.AVAILABLE ("BTC")
    ∧ (0:ℚ) ≤ c1BM.get 1 BalanceType.FREEZE ("BTC")
    ∧ hasPrec (c1BM.get 1 BalanceType.AVAILABLE ("BTC")) 8
    ∧ hasPrec (c1BM.get 1 BalanceType.FREEZE ("BTC")) 8
    ∧ ∃ bm1 bm2, c1BM.frozen 1 ("BTC") 2 = some bm1
        ∧ bm1.unfrozen 1 ("BTC") 2 = some bm2
        ∧ bm2.get 1 BalanceType.AVAILABLE ("BTC") = c1BM.get 1 BalanceType.AVAILABLE ("BTC")
        ∧ bm2.get 1 BalanceType.FREEZE ("BTC") = c1BM.get 1 BalanceType.FREEZE ("BTC") :=
  ⟨by decide, by decide,
    by
      show roundDp (2:ℚ) 8 ≤ (5:ℚ)
      rw [roundDp_eq_self 2 8 ⟨200000000, by norm_num⟩]
      norm_num,
    by decide,
    ⟨500000000, by norm_num [c1BM, btcAM, BalanceManager.get, BalanceManager.get_by_key, mlookup]⟩,
    ⟨0, by show (0:ℚ) = ((0:ℤ):ℚ)/10 ^ (8:ℕ); norm_num⟩,
    freeze_unfreeze_restores c1BM 1 ("BTC") 2 ⟨8, 4⟩ (by decide) (by decide)
      (by
        show roundDp (2:ℚ) 8 ≤ (5:ℚ)
        rw [roundDp_eq_self 2 8 ⟨200000000, by norm_num⟩]
        norm_num)
      (by decide)
      ⟨500000000, by norm_num [c1BM, btcAM, BalanceManager.get, BalanceManager.get_by_key, mlookup]⟩
      ⟨0, by show (0:ℚ) = ((0:ℤ):ℚ)/10 ^ (8:ℕ); norm_num⟩⟩

end DingirAsset

namespace DingirAsset

/-- Holds (as a Bool) when an entry belongs to the asset and is non-zero:
the entries `status` accumulates into its total. -/
def isAssetEntry (asset : String) (kv : BalanceMapKey × ℚ) : Bool :=
  decide (kv.1.asset = asset ∧ kv.2 ≠ 0)

/-- Holds (as a Bool) when an entry belongs to the asset, sits in the given
balance state, and is non-zero. -/
def isAssetStateEntry (asset : String) (t : BalanceType) (kv : BalanceMapKey × ℚ) : Bool :=
  decide (kv.1.asset = asset ∧ kv.1.balance_type = t ∧ kv.2 ≠ 0)

theorem status_foldl_spec (asset : String) (l : List (BalanceMapKey × ℚ)) :
    ∀ init : BalanceStatus,
      l.foldl (statusStep asset) init =
        ⟨init.total + ((l.filter (isAssetEntry asset)).map Prod.snd).sum,
         init.available_count + l.countP (isAssetStateEntry asset BalanceType.AVAILABLE),
         init.available
           + ((l.filter (isAssetStateEntry asset BalanceType.AVAILABLE)).map Prod.snd).sum,
         init.frozen_count + l.countP (isAssetStateEntry asset BalanceType.FREEZE),
         init.frozen
           + ((l.filter (isAssetStateEntry asset BalanceType.FREEZE)).map Prod.snd).sum⟩ := by
  induction l with
  | nil => intro init; simp
  | cons kv t ih =>
    intro init
    rw [List.foldl_cons, ih]
    by_cases h1 : kv.1.asset = asset ∧ kv.2 ≠ 0
    · cases hbt : kv.1.balance_type with
      | AVAILABLE =>
        have ht : kv.1.balance_type = BalanceType.AVAILABLE := hbt
        have hf : isAssetStateEntry asset BalanceType.AVAILABLE kv = true := by
          simp [isAssetStateEntry, h1.1, h1.2, ht]
        have hg : isAssetStateEntry asset BalanceType.FREEZE kv = false := by
          simp [isAssetStateEntry, ht]
        have htot : isAssetEntry asset kv = true := by simp [isAssetEntry, h1.1, h1.2]
        have hgn : ¬ (isAssetStateEntry asset BalanceType.FREEZE kv = true) := by simp [hg]
        simp only [statusStep, if_pos h1, if_pos ht,
          List.countP_cons_of_pos _ _ hf, List.countP_cons_of_neg _ _ hgn,
          List.filter_cons_of_pos hf, List.filter_cons_of_neg hgn,
          List.filter_cons_of_pos htot, List.map_cons, List.sum_cons,
          BalanceStatus.mk.injEq]
        refine ⟨by ring_nf, by ring_nf, by ring_nf, by ring_nf, by ring_nf⟩
      | FREEZE =>
        have ht : kv.1.balance_type = BalanceType.FREEZE := hbt
        have hneq : ¬ (kv.1.balance_type = BalanceType.AVAILABLE) := by simp [ht]
        have hf : isAssetStateEntry asset BalanceType.AVAILABLE kv = false := by
          simp [isAssetStateEntry, ht]
        have hg : isAssetStateEntry asset BalanceType.FREEZE kv = true := by
          simp [isAssetStateEntry, h1.1, h1.2, ht]
        have htot : isAssetEntry asset kv = true := by simp [isAssetEntry, h1.1, h1.2]
        have hfn : ¬ (isAssetStateEntry asset BalanceType.AVAILABLE kv = true) := by simp [hf]
        simp only [statusStep, if_pos h1, if_neg hneq,
          List.countP_cons_of_pos _ _ hg, List.countP_cons_of_neg _ _ hfn,
          List.filter_cons_of_pos hg, List.filter_cons_of_neg hfn,
          List.filter_cons_of_pos htot, List.map_cons, List.sum_cons,
          BalanceStatus.mk.injEq]
        refine ⟨by ring_nf, by ring_nf, by ring_nf, by ring_nf, by ring_nf⟩
    · have hf : isAssetStateEntry asset BalanceType.AVAILABLE kv = false := by
        simp only [isAssetStateEntry, decide_eq_false_iff_not]
        intro hh
        exact h1 ⟨hh.1, hh.2.2⟩
      have hg : isAssetStateEntry asset BalanceType.FREEZE kv = false := by
        simp only [isAssetStateEntry, decide_eq_false_iff_not]
        intro hh
        exact h1 ⟨hh.1, hh.2.2⟩
      have htot : isAssetEntry asset kv = false := by
        simp only [isAssetEntry, decide_eq_false_iff_not]
        exact h1
      have hfn : ¬ (isAssetStateEntry asset BalanceType.AVAILABLE kv = true) := by simp [hf]
      have hgn : ¬ (isAssetStateEntry asset BalanceType.FREEZE kv = true) := by simp [hg]
      have htn : ¬ (isAssetEntry asset kv = true) := by simp [htot]
      simp only [statusStep, if_neg h1,
        List.countP_cons_of_neg _ _ hfn, List.countP_cons_of_neg _ _ hgn,
        List.filter_cons_of_neg hfn, List.filter_cons_of_neg hgn,
        List.filter_cons_of_neg htn]

theorem sum_filter_split (asset : String) (l : List (BalanceMapKey × ℚ)) :
    ((l.filter (isAssetEntry asset)).map Prod.snd).sum
      = ((l.filter (isAssetStateEntry asset BalanceType.AVAILABLE)).map Prod.snd).sum
        + ((l.filter (isAssetStateEntry asset BalanceType.FREEZE)).map Prod.snd).sum := by
  induction l with
  | nil => simp
  | cons kv t ih =>
    by_cases h1 : kv.1.asset = asset ∧ kv.2 ≠ 0
    · cases hbt : kv.1.balance_type with
      | AVAILABLE =>
        have hf : isAssetStateEntry asset BalanceType.AVAILABLE kv = true := by
          simp [isAssetStateEntry, h1.1, h1.2, hbt]
        have hg : isAssetStateEntry asset BalanceType.FREEZE kv = false := by
          simp [isAssetStateEntry, hbt]
        have htot : isAssetEntry asset kv = true := by simp [isAssetEntry, h1.1, h1.2]
        have hgn : ¬ (isAssetStateEntry asset BalanceType.FREEZE kv = true) := by simp [hg]
        simp only [List.filter_cons_of_pos htot, List.filter_cons_of_pos hf,
          List.filter_cons_of_neg hgn, List.map_cons, List.sum_cons, ih]
        ring
      | FREEZE =>
        have hf : isAssetStateEntry asset BalanceType.AVAILABLE kv = false := by
          simp [isAssetStateEntry, hbt]
        have hg : isAssetStateEntry asset BalanceType.FREEZE kv = true := by
          simp [isAssetStateEntry, h1.1, h1.2, hbt]
        have htot : isAssetEntry asset kv = true := by simp [isAssetEntry, h1.1, h1.2]
        have hfn : ¬ (isAssetStateEntry asset BalanceType.AVAILABLE kv = true) := by simp [hf]
        simp only [List.filter_cons_of_pos htot, List.filter_cons_of_pos hg,
          List.filter_cons_of_neg hfn, List.map_cons, List.sum_cons, ih]
        ring
    · have hf : isAssetStateEntry asset BalanceType.AVAILABLE kv = false := by
        simp only [isAssetStateEntry, decide_eq_false_iff_not]
        intro hh
        exact h1 ⟨hh.1, hh.2.2⟩
      have hg : isAssetStateEntry asset BalanceType.FREEZE kv = false := by
        simp only [isAssetStateEntry, decide_eq_false_iff_not]
        intro hh
        exact h1 ⟨hh.1, hh.2.2⟩
      have htot : isAssetEntry asset kv = false := by
        simp only [isAssetEntry, decide_eq_false_iff_not]
        exact h1
      have hfn : ¬ (isAssetStateEntry asset BalanceType.AVAILABLE kv = true) := by simp [hf]
      have hgn : ¬ (isAssetStateEntry asset BalanceType.FREEZE kv = true) := by simp [hg]
      have htn : ¬ (isAssetEntry asset kv = true) := by simp [htot]
      simp only [List.filter_cons_of_neg htn,
        List.filter_cons_of_neg hfn, List.filter_cons_of_neg hgn, ih]

/-- C7: `status` counts exactly the non-zero entries of the asset in each
balance state, sums exactly their amounts, and its total is the sum of the
available and frozen sums; zero entries contribute to nothing. -/
theorem status_counts_and_sums (bm : BalanceManager) (asset : String) :
    (bm.status asset).available_count
        = bm.balances.countP (isAssetStateEntry asset BalanceType.AVAILABLE)
      ∧ (bm.status asset).frozen_count
        = bm.balances.countP (isAssetStateEntry asset BalanceType.FREEZE)
      ∧ (bm.status asset).available
        = ((bm.balances.filter (isAssetStateEntry asset BalanceType.AVAILABLE)).map
            Prod.snd).sum
      ∧ (bm.status asset).frozen
        = ((bm.balances.filter (isAssetStateEntry asset BalanceType.FREEZE)).map
            Prod.snd).sum
      ∧ (bm.status asset).total = (bm.status asset).available + (bm.status asset).frozen := by
  have h := status_foldl_spec asset bm.balances ⟨0, 0, 0, 0, 0⟩
  refine ⟨?_, ?_, ?_, ?_, ?_⟩
  · simp only [BalanceManager.status, h, zero_add]
  · simp only [BalanceManager.status, h, zero_add]
  · simp only [BalanceManager.status, h, zero_add]
  · simp only [BalanceManager.status, h, zero_add]
  · simp only [BalanceManager.status, h, zero_add]
    exact sum_filter_split asset bm.balances

end DingirAsset
